import Mathlib

set_option linter.unusedVariables false

/-!
Shallow embedding of the LingoChamp vocabulary-trainer application
(src/App.tsx, src/services/ttsService.ts, src/services/geminiService.ts,
src/types.ts), together with theorems checking the repository's
natural-language specification against the code.

Conventions of the embedding:
* React `useState` fields become fields of explicit state structures;
  each event handler becomes a pure state-transition function.
* A `setTimeout` callback is modelled as a separate "delayed" transition
  applied to the state at the moment the timer fires (the source reads
  the then-current phase through `phaseRef`).
* JavaScript strings are Lean `String`s; `trim`/`toLowerCase` are
  `String.trim`/`String.toLower`.
* `Array.prototype.sort(() => Math.random() - 0.5)` (the app's shuffle)
  is a comparison sort whose comparisons are driven by independent random
  signs; it is modelled as an insertion sort consuming a list of Boolean
  coins, one coin per comparison.  Any comparison sort driven by finitely
  many fair coins yields dyadic outcome probabilities, so the particular
  choice of comparison sort does not affect the (non-)uniformity results.
* The percentage computation `Math.round((score / maxScore) * 100)` runs
  in IEEE-754 double precision; doubles are rationals, and rounding an
  exact rational to the nearest double (ties to even) is embedded exactly
  by `flround` below.  `Math.round` on a nonnegative double value `x`
  returns the integer closest to `x`, ties toward +infinity, i.e.
  `⌊x + 1/2⌋` evaluated on the exact rational value of `x`.
-/

namespace LingoChamp

/-! ## Data model (src/types.ts) -/

/-- `Word` record from src/types.ts. -/
structure Word where
  word : String
  cleanWord : String
  pronunciationGuide : String
  translation : String
  explanationText : String
deriving DecidableEq, Repr

/-- `LearningPhase` from src/types.ts. -/
inductive LearningPhase where
  | welcome
  | micCheck
  | introduction
  | pronunciationPhase
  | spelling
  | completed
deriving DecidableEq, Repr

/-- The `feedback` state: `'correct' | 'incorrect' | null` with the
`null` case represented by `Option.none` at use sites. -/
inductive Feedback where
  | correct
  | incorrect
deriving DecidableEq, Repr

/-! ## The shuffle (src/App.tsx lines 80-81, 258, 286, 393)

`[...WORDS_DATA].sort(() => Math.random() - 0.5)` sorts with a comparator
that ignores its arguments and returns a random sign.  We model the
comparison sort as insertion sort; each comparison consumes one coin from
`coins` (`true` = the comparator told the sort to keep the inserted
element in front).  If the coin list runs out the insertion stops
deterministically; supplying at least `n*(n-1)/2` coins for an `n`-element
list means the supply is never exhausted. -/

/-- Coin-driven insertion step of the modelled comparison sort. -/
def insertCoin {α : Type} (a : α) : List α → List Bool → List α × List Bool
  | [], cs => ([a], cs)
  | b :: l, [] => (a :: b :: l, [])
  | b :: l, c :: cs =>
      if c then (a :: b :: l, cs)
      else
        let p := insertCoin a l cs
        (b :: p.1, p.2)

/-- Coin-driven insertion sort of the modelled comparison sort. -/
def sortCoins {α : Type} : List α → List Bool → List α × List Bool
  | [], cs => ([], cs)
  | a :: l, cs =>
      let p := sortCoins l cs
      insertCoin a p.1 p.2

/-- The app's shuffle `xs.sort(() => Math.random() - 0.5)`, with the
random comparator outcomes supplied as `coins`. -/
def shuffleJS {α : Type} (coins : List Bool) (l : List α) : List α :=
  (sortCoins l coins).1

/-! ## Learning-session state (src/App.tsx lines 49-59) -/

/-- The learning-mode slice of `App`'s state. -/
structure LearnState where
  words : List Word
  currentWordIndex : Nat
  phase : LearningPhase
  feedback : Option Feedback
  inputValue : String
  transcript : String
  hint : String
deriving DecidableEq, Repr

/-- `resetForNextWord` (src/App.tsx lines 112-117). -/
def resetForNextWord (s : LearnState) : LearnState :=
  { s with feedback := none, inputValue := "", transcript := "", hint := "" }

/-- `handleNextPhase` (src/App.tsx lines 119-122). -/
def handleNextPhase (s : LearnState) (nextPhase : LearningPhase) : LearnState :=
  resetForNextWord { s with phase := nextPhase }

/-- `handleAdvance` (src/App.tsx lines 124-131): advance to the next
word's introduction, or to `completed` when no word remains. -/
def handleAdvance (s : LearnState) : LearnState :=
  if s.currentWordIndex < s.words.length - 1 then
    handleNextPhase { s with currentWordIndex := s.currentWordIndex + 1 }
      .introduction
  else
    handleNextPhase s .completed

/-- Immediate effect of `showFeedbackAndAdvance` (src/App.tsx line 134):
set the transient feedback flag. -/
def showFeedbackAndAdvance (s : LearnState) (isCorrect : Bool) : LearnState :=
  { s with feedback := some (if isCorrect then .correct else .incorrect) }

/-- The `setTimeout` callback of `showFeedbackAndAdvance`
(src/App.tsx lines 135-146), applied to the state when the 1500 ms timer
fires; the source reads the live phase through `phaseRef.current`. -/
def showFeedbackAndAdvanceDelayed (s : LearnState) (isCorrect : Bool) :
    LearnState :=
  if isCorrect then
    match s.phase with
    | .pronunciationPhase => resetForNextWord { s with phase := .spelling }
    | .spelling => handleAdvance s
    | _ => s
  else
    { s with feedback := none }

/-- JavaScript whitespace test for `String.prototype.trim` (modelled for
the whitespace characters that can occur in typed or transcribed
answers). -/
def isJsSpace (c : Char) : Bool :=
  c = ' ' || c = '\t' || c = '\n' || c = '\r' || c = '\x0b' || c = '\x0c'

/-- `str.trim()`: remove leading and trailing whitespace. -/
def jsTrim (s : String) : String :=
  ⟨((s.data.dropWhile isJsSpace).reverse.dropWhile isJsSpace).reverse⟩

/-- ASCII lowering of one character, as `String.prototype.toLowerCase`
acts on the ASCII vocabulary entries of this app. -/
def lowerChar (c : Char) : Char :=
  if 'A' ≤ c && c ≤ 'Z' then Char.ofNat (c.toNat + 32) else c

/-- `str.toLowerCase()` on ASCII strings. -/
def jsToLower (s : String) : String :=
  ⟨s.data.map lowerChar⟩

/-- Spelling/pronunciation correctness check
`input.trim().toLowerCase() === w.cleanWord.toLowerCase()`
(src/App.tsx lines 151, 205, 484, 494). -/
def answerMatches (input : String) (w : Word) : Bool :=
  jsToLower (jsTrim input) == jsToLower w.cleanWord

/-- `startLearning` (src/App.tsx lines 392-397): reshuffle the repository,
reset the index, return to the welcome phase. -/
def startLearning (s : LearnState) (coins : List Bool) (repo : List Word) :
    LearnState :=
  { s with words := shuffleJS coins repo, currentWordIndex := 0,
           phase := .welcome }

def wCat : Word := ⟨"cat", "cat", "[kaet]", "katė", "a small animal"⟩

def wDog : Word := ⟨"dog", "dog", "[dog]", "šuo", "a loyal animal"⟩

def wSun : Word := ⟨"sun", "sun", "[san]", "saulė", "the star above"⟩

def wSea : Word := ⟨"sea", "sea", "[see]", "jūra", "a lot of water"⟩


/-! ## Distribution of the shuffle

`shuffleJS` consumes at most one fair coin per comparison, so its outcome
distribution on a fixed input is determined by counting coin lists of a
fixed sufficient length (unused coins are uniform and cancel).  For a
3-element list, insertion sort performs at most 3 comparisons, so length-4
coin lists more than suffice. -/

/-- All coin lists of length `n`, each equally likely. -/
def allCoinLists : Nat → List (List Bool)
  | 0 => [[]]
  | n + 1 =>
      (allCoinLists n).map (true :: ·) ++ (allCoinLists n).map (false :: ·)

/-- Number of length-`n` coin lists under which the app's shuffle sends
`[0, 1, 2]` to `p`. -/
def shuffleCount (n : Nat) (p : List Nat) : Nat :=
  (allCoinLists n).countP (fun cs => shuffleJS cs [0, 1, 2] == p)

/-! ## Test system data (src/types.ts lines 14-30) -/

/-- Test mode of a `TestResult`. -/
inductive TestMode where
  | easy
  | hard
deriving DecidableEq, Repr

/-- `TestQuestion` from src/types.ts (optional fields are `Option`s). -/
structure TestQuestion where
  word : Word
  options : Option (List String)
  userAnswer : Option String
  pronunciationCorrect : Option Bool
  spellingCorrect : Option Bool
  answered : Bool
deriving DecidableEq, Repr

/-! ## IEEE-754 double-precision model for the percentage computation

`Math.round((score / maxScore) * 100)` (src/App.tsx line 315) runs on
binary64 doubles.  Every double is a rational `mant * 2 ^ exp`; division
and multiplication round their exact rational result to the nearest
double (ties to even) with a 53-bit significand.  The functions below
compute this exactly in natural-number arithmetic (normal range only,
which covers every value reachable here); `Math.round` on a nonnegative
double returns the closest integer, ties toward +infinity. -/

/-- Round `num / den` (for `den > 0`) to the nearest natural number,
ties to even. -/
def rneDiv (num den : Nat) : Nat :=
  let q := num / den
  let r := num % den
  if 2 * r < den then q
  else if den < 2 * r then q + 1
  else if q % 2 = 0 then q else q + 1

/-- Least `k` with `den ≤ num * 2 ^ k` (fuelled search; `num > 0`). -/
def findK : Nat → Nat → Nat → Nat
  | 0, _, _ => 0
  | fuel + 1, num, den => if den ≤ num then 0 else findK fuel (2 * num) den + 1

/-- Fuelled binary logarithm (`log2fuel fuel n = ⌊log₂ n⌋` for
`1 ≤ n < 2 ^ fuel`). -/
def log2fuel : Nat → Nat → Nat
  | 0, _ => 0
  | fuel + 1, n => if n ≤ 1 then 0 else log2fuel fuel (n / 2) + 1

/-- `⌊log₂ n⌋` for `n ≥ 1`. -/
def natLog2 (n : Nat) : Nat := log2fuel 1200 n

/-- The binary64 double nearest to `num / den` (round to nearest, ties
to even), returned as `(mantissa, exponent)` with value
`mantissa * 2 ^ exponent`. -/
def flDiv (num den : Nat) : Nat × Int :=
  if num = 0 then (0, 0)
  else if den ≤ num then
    let p := natLog2 (num / den)
    if p ≤ 52 then (rneDiv (num * 2 ^ (52 - p)) den, (p : Int) - 52)
    else (rneDiv num (den * 2 ^ (p - 52)), (p : Int) - 52)
  else
    let k := findK 1200 num den
    (rneDiv (num * 2 ^ (52 + k)) den, -(k : Int) - 52)

/-- Double-precision multiplication of the double `me` by the exactly
representable constant 100: round the exact product to the nearest
double. -/
def flMul100 (me : Nat × Int) : Nat × Int :=
  if 0 ≤ me.2 then flDiv (me.1 * 100 * 2 ^ me.2.toNat) 1
  else flDiv (me.1 * 100) (2 ^ (-me.2).toNat)

/-- `Math.round` of the nonnegative double `me`: the closest integer,
ties toward +infinity (`⌊x + 1/2⌋` on the exact value). -/
def mathRoundDyadic (me : Nat × Int) : Nat :=
  if 0 ≤ me.2 then me.1 * 2 ^ me.2.toNat
  else (2 * me.1 + 2 ^ (-me.2).toNat) / 2 ^ ((-me.2).toNat + 1)

/-- `Math.round((score / maxScore) * 100)` exactly as evaluated in
double precision (src/App.tsx line 315). -/
def jsPct (score maxScore : Nat) : Nat :=
  mathRoundDyadic (flMul100 (flDiv score maxScore))

/-- `TestResult` from src/types.ts (the `completedAt` timestamp is not
modelled). -/
structure TestResult where
  mode : TestMode
  questions : List TestQuestion
  score : Nat
  maxScore : Nat
  percentage : Nat
deriving DecidableEq, Repr

/-- Points a hard-mode question contributes to the score: one per
truthy correctness flag (src/App.tsx lines 309-312). -/
def questionPoints (q : TestQuestion) : Nat :=
  (if q.spellingCorrect = some true then 1 else 0) +
    (if q.pronunciationCorrect = some true then 1 else 0)

/-- One iteration of the hard-mode scoring loop
(src/App.tsx lines 309-312): `if (q.spellingCorrect) score++;
if (q.pronunciationCorrect) score++`. -/
def hardScoreStep (acc : Nat) (q : TestQuestion) : Nat :=
  let acc1 := if q.spellingCorrect = some true then acc + 1 else acc
  if q.pronunciationCorrect = some true then acc1 + 1 else acc1

/-- `finishTest` (src/App.tsx lines 299-334): compute score, maxScore
and percentage.  Persistence to localStorage is a side effect outside
this model. -/
def finishTest (mode : TestMode) (questions : List TestQuestion) :
    TestResult :=
  let score := match mode with
    | .easy =>
        (questions.filter
          (fun q => q.userAnswer == some q.word.cleanWord)).length
    | .hard => questions.foldl hardScoreStep 0
  let maxScore := match mode with
    | .easy => questions.length
    | .hard => questions.length * 2
  { mode := mode, questions := questions, score := score,
    maxScore := maxScore, percentage := jsPct score maxScore }

/-- The question built for one selected word by `generateEasyTest`
(src/App.tsx lines 261-277): 3 wrong options drawn from a shuffle of the
other words, then the 4 options shuffled together. -/
def genEasyQuestion (repo : List Word) (c1 c2 : List Bool) (w : Word) :
    TestQuestion :=
  let wrongOptions :=
    ((shuffleJS c1
        (repo.filter (fun u => u.cleanWord != w.cleanWord))).take 3).map
      Word.cleanWord
  { word := w,
    options := some (shuffleJS c2 (w.cleanWord :: wrongOptions)),
    userAnswer := none, pronunciationCorrect := none,
    spellingCorrect := none, answered := false }

/-- `generateEasyTest` (src/App.tsx lines 256-282): 10 words from a
shuffle of the repository; `qc` supplies the per-word comparator coins. -/
def generateEasyTest (repo : List Word) (sel : List Bool)
    (qc : Word → List Bool × List Bool) : List TestQuestion :=
  ((shuffleJS sel repo).take 10).map
    (fun w => genEasyQuestion repo (qc w).1 (qc w).2 w)

/-- `generateHardTest` (src/App.tsx lines 284-297): 20 words from a
shuffle of the repository, no options. -/
def generateHardTest (repo : List Word) (sel : List Bool) :
    List TestQuestion :=
  ((shuffleJS sel repo).take 20).map
    (fun w =>
      { word := w, options := none, userAnswer := none,
        pronunciationCorrect := none, spellingCorrect := none,
        answered := false })

/-- The record update performed by `handleHardTestSubmit`
(src/App.tsx lines 367-374). -/
def handleHardTestSubmitUpdate (q : TestQuestion) (sc pc : Bool) :
    TestQuestion :=
  { q with spellingCorrect := some sc, pronunciationCorrect := some pc,
           answered := true }

/-- A completed hard-test question for word `w` with typed answer
`typed` and transcribed speech `spoken`: `handleHardSpellingCheck`
(src/App.tsx line 484) sets the spelling flag,
`handlePronunciationNext` (line 494) the pronunciation flag, and
`handleHardTestSubmit` stores both. -/
def hardQuestionFromAnswers (w : Word) (typed spoken : String) :
    TestQuestion :=
  handleHardTestSubmitUpdate
    { word := w, options := none, userAnswer := none,
      pronunciationCorrect := none, spellingCorrect := none,
      answered := false }
    (answerMatches typed w) (answerMatches spoken w)

/-- A hard test finished on the given `(word, typed, spoken)` answers. -/
def hardTestFromAnswers (answers : List (Word × String × String)) :
    TestResult :=
  finishTest .hard
    (answers.map fun a => hardQuestionFromAnswers a.1 a.2.1 a.2.2)

/-! ## Speech-output adapter (src/services/ttsService.ts)

The environment of one `speakWithGoogleTTS` call: whether the module-level
API key constant is set (`GOOGLE_TTS_API_KEY`, line 5), whether the text
is in the audio cache (line 20), what the `fetch` of the synthesis
endpoint does, and whether `audio.play()` rejects. -/

/-- Outcome of the `fetch` against the cloud synthesis endpoint. -/
inductive TTSOutcome where
  | networkError
  | httpError (status : Nat)
  | payload (audioContent : Option String)
deriving DecidableEq, Repr

/-- Observable effects of one `speakWithGoogleTTS` call. -/
structure TTSCallResult where
  fetchAttempted : Bool
  fallbackCalls : Nat
  played : Bool
  raised : Bool
deriving DecidableEq, Repr

/-- `speakWithGoogleTTS` (src/services/ttsService.ts lines 17-94).
The source never inspects `GOOGLE_TTS_API_KEY` (the key is only
interpolated into the request URL), so `keyPresent` does not influence
control flow.  A missing `audioContent` field in a successful response
falls through the `if (data.audioContent)` guard with no playback and no
fallback; a network error or a thrown non-2xx status reaches the `catch`
and calls `fallbackToWebSpeech` once; a rejected `play()` promise calls
it once from the rejection handler. -/
def speakWithGoogleTTS (keyPresent cacheHit playFails : Bool)
    (outcome : TTSOutcome) : TTSCallResult :=
  if cacheHit then
    { fetchAttempted := false, fallbackCalls := if playFails then 1 else 0,
      played := !playFails, raised := false }
  else
    match outcome with
    | .networkError =>
        { fetchAttempted := true, fallbackCalls := 1, played := false,
          raised := false }
    | .httpError _ =>
        { fetchAttempted := true, fallbackCalls := 1, played := false,
          raised := false }
    | .payload none =>
        { fetchAttempted := true, fallbackCalls := 0, played := false,
          raised := false }
    | .payload (some _) =>
        { fetchAttempted := true, fallbackCalls := if playFails then 1 else 0,
          played := !playFails, raised := false }

/-! ## Hint generator client (src/services/geminiService.ts) -/

/-- Outcome of the `fetch` against the generative-text endpoint;
`candidates` lists the text of each returned candidate. -/
inductive GeminiOutcome where
  | networkError
  | httpError (status : Nat)
  | candidates (texts : List String)
deriving DecidableEq, Repr

/-- Observable result of one `getExampleSentence` call. -/
structure GeminiCallResult where
  sentence : String
  fetchAttempted : Bool
deriving DecidableEq, Repr

/-- The canned fallback sentence of `getExampleSentence`. -/
def geminiFallbackSentence : String :=
  "Sorry, I couldn\x27t think of an example sentence right now."

/-- The message returned when `VITE_GEMINI_API_KEY` is absent. -/
def geminiNoKeyMessage : String :=
  "API Key not configured. Please set VITE_GEMINI_API_KEY environment variable."

/-- `getExampleSentence` (src/services/geminiService.ts lines 18-66):
without a key, return the configuration message with no network call;
otherwise any network error, non-2xx status or empty candidate list
yields the fallback sentence, and a nonempty candidate list yields the
first candidate's trimmed text. -/
def getExampleSentence (keyPresent : Bool) (outcome : GeminiOutcome) :
    GeminiCallResult :=
  if !keyPresent then
    { sentence := geminiNoKeyMessage, fetchAttempted := false }
  else
    match outcome with
    | .networkError =>
        { sentence := geminiFallbackSentence, fetchAttempted := true }
    | .httpError _ =>
        { sentence := geminiFallbackSentence, fetchAttempted := true }
    | .candidates [] =>
        { sentence := geminiFallbackSentence, fetchAttempted := true }
    | .candidates (t :: _) =>
        { sentence := jsTrim t, fetchAttempted := true }

/-! ## Speech-recognition `onend` handler (src/App.tsx lines 219-227)

The recognition object and its handlers are created once, in a
`useEffect` with an empty dependency list that runs after the first
render.  Inside `recognition.onend`, `phaseRef.current` reads the live
phase through a ref, but `micCheckStatus` is the plain state variable
captured by the closure at registration time — its value at first
render, `'idle'`. -/

/-- `micCheckStatus` values (src/App.tsx line 58). -/
inductive MicStatus where
  | idle
  | listening
  | success
  | error
deriving DecidableEq, Repr

/-- The mic-related state touched by `recognition.onend`. -/
structure MicState where
  isListening : Bool
  micCheckStatus : MicStatus
  micError : Option String
deriving DecidableEq, Repr

/-- The error message of the no-speech path (src/App.tsx line 224). -/
def noSpeechMessage : String := "No speech detected. Please try again."

/-- `recognition.onend` (src/App.tsx lines 219-227), parameterised by the
`micCheckStatus` value the closure captured when the handler was
registered (`capturedStatus`) and the live phase read via
`phaseRef.current`. -/
def recognitionOnEnd (capturedStatus : MicStatus)
    (livePhase : LearningPhase) (s : MicState) : MicState :=
  let s1 := { s with isListening := false }
  if livePhase = .micCheck ∧ capturedStatus ≠ .success then
    if capturedStatus = .listening then
      { s1 with micCheckStatus := .error, micError := some noSpeechMessage }
    else s1
  else s1

/-- The `micCheckStatus` value captured by the mount-time effect
(src/App.tsx lines 179-237, dependency list `[]`): the initial state
`'idle'` of line 58. -/
def capturedStatusAtMount : MicStatus := .idle

/-! ## Hard-test per-question state (src/App.tsx lines 65-66, 482-499) -/

/-- The two legs of a hard-test question. -/
inductive HardPhase where
  | spellingLeg
  | pronunciationLeg
deriving DecidableEq, Repr

/-- The state touched by the hard-test handlers. -/
structure HardTestState where
  inputValue : String
  transcript : String
  feedback : Option Feedback
  hardTestPhase : HardPhase
  hardSpellingCorrect : Bool
deriving DecidableEq, Repr

/-- Immediate effect of `handleHardSpellingCheck`
(src/App.tsx lines 482-486): record whether the typed answer matches
and show feedback. -/
def handleHardSpellingCheck (s : HardTestState) (w : Word) : HardTestState :=
  let isCorrect := answerMatches s.inputValue w
  { s with hardSpellingCorrect := isCorrect,
           feedback := some (if isCorrect then .correct else .incorrect) }

/-- The `setTimeout` callback of `handleHardSpellingCheck`
(src/App.tsx lines 487-490): clear feedback and move unconditionally to
the pronunciation leg. -/
def handleHardSpellingCheckDelayed (s : HardTestState) : HardTestState :=
  { s with feedback := none, hardTestPhase := .pronunciationLeg }

/-- A small concrete repository used to instantiate theorems that carry
hypotheses. -/
def sampleRepo : List Word := [wCat, wDog, wSun, wSea]

/-- A concrete 20-question hard test worth 23 of 40 points: 11 questions
fully correct, 1 with only the spelling leg correct, 8 fully wrong
(used for the percentage-rounding counterexample). -/
def qHardBoth : TestQuestion := ⟨wCat, none, none, some true, some true, true⟩

def qHardSpellOnly : TestQuestion :=
  ⟨wCat, none, none, some false, some true, true⟩

def qHardNone : TestQuestion :=
  ⟨wCat, none, none, some false, some false, true⟩

def exHardQuestions : List TestQuestion :=
  List.replicate 11 qHardBoth ++ [qHardSpellOnly] ++
    List.replicate 8 qHardNone

/-! ## Theorems: the shuffle model -/

theorem insertCoin_perm {α : Type} (a : α) (l : List α) (cs : List Bool) :
    (insertCoin a l cs).1.Perm (a :: l) := by
  induction l generalizing cs with
  | nil => simp [insertCoin]
  | cons b l ih =>
      cases cs with
      | nil => simp [insertCoin]
      | cons c cs =>
          by_cases hc : c
          · simp [insertCoin, hc]
          · simp only [insertCoin, hc, if_neg]
            exact ((ih cs).cons b).trans (List.Perm.swap a b l)

theorem sortCoins_perm {α : Type} (l : List α) (cs : List Bool) :
    (sortCoins l cs).1.Perm l := by
  induction l generalizing cs with
  | nil => simp [sortCoins]
  | cons a l ih =>
      exact (insertCoin_perm a (sortCoins l cs).1 (sortCoins l cs).2).trans
        ((ih cs).cons a)

theorem shuffleJS_perm {α : Type} (coins : List Bool) (l : List α) :
    (shuffleJS coins l).Perm l :=
  sortCoins_perm l coins

theorem shuffleJS_length {α : Type} (coins : List Bool) (l : List α) :
    (shuffleJS coins l).length = l.length :=
  (shuffleJS_perm coins l).length_eq

theorem shuffleJS_mem {α : Type} {coins : List Bool} {l : List α} {a : α}
    (h : a ∈ shuffleJS coins l) : a ∈ l :=
  (shuffleJS_perm coins l).mem_iff.mp h

theorem shuffleJS_nodup {α : Type} (coins : List Bool) {l : List α}
    (h : l.Nodup) : (shuffleJS coins l).Nodup :=
  ((shuffleJS_perm coins l).nodup_iff).mpr h

/-! ## Theorem: learning state machine (claim C1) -/

/-- C1: in phase `'spelling'` or `'pronunciation'`, a correct evaluation
performs after the 1500 ms delay exactly the state-machine transition
(pronunciation → spelling; spelling before the last word → next index and
`'introduction'`; spelling on the last word → `'completed'`) and clears
the transient input fields (text input, transcript, hint); an incorrect
evaluation merely clears the transient feedback flag, with no phase
change. -/
theorem showFeedbackAndAdvanceDelayed_spec (s : LearnState) :
    (s.phase = .pronunciationPhase →
      showFeedbackAndAdvanceDelayed s true =
        { s with phase := .spelling, feedback := none, inputValue := "",
                 transcript := "", hint := "" }) ∧
    (s.phase = .spelling → s.currentWordIndex + 1 < s.words.length →
      showFeedbackAndAdvanceDelayed s true =
        { s with currentWordIndex := s.currentWordIndex + 1,
                 phase := .introduction, feedback := none, inputValue := "",
                 transcript := "", hint := "" }) ∧
    (s.phase = .spelling → s.currentWordIndex + 1 = s.words.length →
      showFeedbackAndAdvanceDelayed s true =
        { s with phase := .completed, feedback := none, inputValue := "",
                 transcript := "", hint := "" }) ∧
    ((s.phase = .pronunciationPhase ∨ s.phase = .spelling) →
      showFeedbackAndAdvanceDelayed s false = { s with feedback := none }) := by
  refine ⟨?_, ?_, ?_, ?_⟩
  · intro h
    simp [showFeedbackAndAdvanceDelayed, h, resetForNextWord]
  · intro h hlt
    have hcond : s.currentWordIndex < s.words.length - 1 := by omega
    simp [showFeedbackAndAdvanceDelayed, h, handleAdvance, hcond,
      handleNextPhase, resetForNextWord]
  · intro h hlast
    have hcond : ¬ s.currentWordIndex < s.words.length - 1 := by omega
    simp [showFeedbackAndAdvanceDelayed, h, handleAdvance, hcond,
      handleNextPhase, resetForNextWord]
  · intro _
    simp [showFeedbackAndAdvanceDelayed]

/-- Witness for C1: each implication of
`showFeedbackAndAdvanceDelayed_spec` applied at a concrete state. -/
theorem showFeedbackAndAdvanceDelayed_spec_witness :
    (showFeedbackAndAdvanceDelayed
        ⟨[wCat, wDog], 0, .pronunciationPhase, some .correct, "x", "y", "z"⟩
        true =
      ⟨[wCat, wDog], 0, .spelling, none, "", "", ""⟩) ∧
    (showFeedbackAndAdvanceDelayed
        ⟨[wCat, wDog], 0, .spelling, some .correct, "x", "y", "z"⟩ true =
      ⟨[wCat, wDog], 1, .introduction, none, "", "", ""⟩) ∧
    (showFeedbackAndAdvanceDelayed
        ⟨[wCat, wDog], 1, .spelling, some .correct, "x", "y", "z"⟩ true =
      ⟨[wCat, wDog], 1, .completed, none, "", "", ""⟩) ∧
    (showFeedbackAndAdvanceDelayed
        ⟨[wCat, wDog], 1, .spelling, some .incorrect, "x", "y", "z"⟩ false =
      ⟨[wCat, wDog], 1, .spelling, none, "x", "y", "z"⟩) := by
  refine ⟨?_, ?_, ?_, ?_⟩
  · exact (showFeedbackAndAdvanceDelayed_spec
      ⟨[wCat, wDog], 0, .pronunciationPhase, some .correct, "x", "y", "z"⟩).1
      rfl
  · exact (showFeedbackAndAdvanceDelayed_spec
      ⟨[wCat, wDog], 0, .spelling, some .correct, "x", "y", "z"⟩).2.1
      rfl (by decide)
  · exact (showFeedbackAndAdvanceDelayed_spec
      ⟨[wCat, wDog], 1, .spelling, some .correct, "x", "y", "z"⟩).2.2.1
      rfl (by decide)
  · exact (showFeedbackAndAdvanceDelayed_spec
      ⟨[wCat, wDog], 1, .spelling, some .incorrect, "x", "y", "z"⟩).2.2.2
      (Or.inr rfl)

/-! ## Theorems: test generation (claims about the easy/hard tests) -/

/-- C2: a freshly generated easy-test question for a repository word `w`
has exactly 4 options, contains `w.cleanWord` exactly once, and its
other 3 options are the clean forms of 3 distinct repository words other
than `w`. -/
theorem genEasyQuestion_spec (repo : List Word) (c1 c2 : List Bool)
    (w : Word) (hw : w ∈ repo) (hnd : repo.Nodup)
    (h3 : 3 ≤ (repo.filter (fun u => u.cleanWord != w.cleanWord)).length) :
    ∃ opts : List String,
      (genEasyQuestion repo c1 c2 w).options = some opts ∧
      opts.length = 4 ∧
      opts.count w.cleanWord = 1 ∧
      ∃ ws : List Word, ws.Nodup ∧ ws.length = 3 ∧
        (∀ u ∈ ws, u ∈ repo ∧ u ≠ w) ∧
        opts.Perm (w.cleanWord :: ws.map Word.cleanWord) := by
  classical
  set filtered := repo.filter (fun u => u.cleanWord != w.cleanWord) with hf
  set ws := (shuffleJS c1 filtered).take 3 with hws
  have hlen : ws.length = 3 := by
    rw [hws, List.length_take, shuffleJS_length]
    omega
  have hmemf : ∀ u ∈ ws, u ∈ filtered := by
    intro u hu
    exact shuffleJS_mem (List.mem_of_mem_take hu)
  have hmem : ∀ u ∈ ws, u ∈ repo ∧ u ≠ w := by
    intro u hu
    have h1 := List.mem_filter.mp (hmemf u hu)
    refine ⟨h1.1, ?_⟩
    intro he
    have := bne_iff_ne.mp h1.2
    exact this (by rw [he])
  have hclean : ∀ u ∈ ws, u.cleanWord ≠ w.cleanWord := by
    intro u hu
    exact bne_iff_ne.mp (List.mem_filter.mp (hmemf u hu)).2
  have hnodup : ws.Nodup := by
    rw [hws]
    exact (List.take_sublist 3 _).nodup
      (((shuffleJS_perm c1 filtered).nodup_iff).mpr (hnd.filter _))
  have hperm : (shuffleJS c2 (w.cleanWord :: ws.map Word.cleanWord)).Perm
      (w.cleanWord :: ws.map Word.cleanWord) :=
    shuffleJS_perm c2 _
  refine ⟨shuffleJS c2 (w.cleanWord :: ws.map Word.cleanWord), rfl, ?_, ?_,
    ws, hnodup, hlen, hmem, hperm⟩
  · rw [hperm.length_eq]
    simp [hlen]
  · rw [hperm.count_eq]
    have h0 : (ws.map Word.cleanWord).count w.cleanWord = 0 := by
      rw [List.count_eq_zero]
      intro hm
      obtain ⟨u, hu, he⟩ := List.mem_map.mp hm
      exact hclean u hu he
    simp [List.count_cons, h0]

/-- Witness for C2 at a concrete 4-word repository. -/
theorem genEasyQuestion_spec_witness :
    wCat ∈ sampleRepo ∧ sampleRepo.Nodup ∧
    3 ≤ (sampleRepo.filter
        (fun u => u.cleanWord != wCat.cleanWord)).length ∧
    ∃ opts : List String,
      (genEasyQuestion sampleRepo [] [] wCat).options = some opts ∧
      opts.length = 4 ∧
      opts.count wCat.cleanWord = 1 ∧
      ∃ ws : List Word, ws.Nodup ∧ ws.length = 3 ∧
        (∀ u ∈ ws, u ∈ sampleRepo ∧ u ≠ wCat) ∧
        opts.Perm (wCat.cleanWord :: ws.map Word.cleanWord) :=
  ⟨by decide, by decide, by decide,
    genEasyQuestion_spec sampleRepo [] [] wCat (by decide) (by decide)
      (by decide)⟩

/-- C5: an easy (hard) test generated from a repository with at least 10
(20) entries has exactly 10 (20) questions over distinct repository
words; from a smaller repository it has exactly repository-size
questions. -/
theorem generateTest_size_spec (repo : List Word) (sel selH : List Bool)
    (qc : Word → List Bool × List Bool) :
    (10 ≤ repo.length → (generateEasyTest repo sel qc).length = 10) ∧
    (repo.length < 10 →
      (generateEasyTest repo sel qc).length = repo.length) ∧
    (20 ≤ repo.length → (generateHardTest repo selH).length = 20) ∧
    (repo.length < 20 →
      (generateHardTest repo selH).length = repo.length) ∧
    (repo.Nodup →
      ((generateEasyTest repo sel qc).map (fun q => q.word)).Nodup ∧
      ((generateHardTest repo selH).map (fun q => q.word)).Nodup) ∧
    (∀ q ∈ generateEasyTest repo sel qc, q.word ∈ repo) ∧
    (∀ q ∈ generateHardTest repo selH, q.word ∈ repo) := by
  have heasy : (generateEasyTest repo sel qc).map (fun q => q.word) =
      (shuffleJS sel repo).take 10 := by
    simp [generateEasyTest, List.map_map, Function.comp_def, genEasyQuestion]
  have hhard : (generateHardTest repo selH).map (fun q => q.word) =
      (shuffleJS selH repo).take 20 := by
    simp [generateHardTest, List.map_map, Function.comp_def]
  have hle : (generateEasyTest repo sel qc).length =
      min 10 repo.length := by
    simp [generateEasyTest, shuffleJS_length]
  have hlh : (generateHardTest repo selH).length =
      min 20 repo.length := by
    simp [generateHardTest, shuffleJS_length]
  refine ⟨fun h => by omega, fun h => by omega, fun h => by omega,
    fun h => by omega, fun hnd => ?_, ?_, ?_⟩
  · constructor
    · rw [heasy]
      exact (List.take_sublist _ _).nodup
        (((shuffleJS_perm sel repo).nodup_iff).mpr hnd)
    · rw [hhard]
      exact (List.take_sublist _ _).nodup
        (((shuffleJS_perm selH repo).nodup_iff).mpr hnd)
  · intro q hq
    have : q.word ∈ (generateEasyTest repo sel qc).map (fun q => q.word) :=
      List.mem_map_of_mem _ hq
    rw [heasy] at this
    exact shuffleJS_mem (List.mem_of_mem_take this)
  · intro q hq
    have : q.word ∈ (generateHardTest repo selH).map (fun q => q.word) :=
      List.mem_map_of_mem _ hq
    rw [hhard] at this
    exact shuffleJS_mem (List.mem_of_mem_take this)

/-- Witness for C5: the 4-word sample repository is below both caps, so
both tests have exactly 4 questions, and they are distinct repository
words. -/
theorem generateTest_size_spec_witness :
    sampleRepo.length < 10 ∧ sampleRepo.length < 20 ∧ sampleRepo.Nodup ∧
    (generateEasyTest sampleRepo [] (fun _ => ([], []))).length =
      sampleRepo.length ∧
    (generateHardTest sampleRepo []).length = sampleRepo.length ∧
    ((generateEasyTest sampleRepo [] (fun _ => ([], []))).map
        (fun q => q.word)).Nodup :=
  ⟨by decide, by decide, by decide,
    (generateTest_size_spec sampleRepo [] [] (fun _ => ([], []))).2.1
      (by decide),
    (generateTest_size_spec sampleRepo [] [] (fun _ => ([], []))).2.2.2.1
      (by decide),
    ((generateTest_size_spec sampleRepo [] [] (fun _ => ([], []))).2.2.2.2.1
      (by decide)).1⟩

/-! ## Theorems: the shuffle (claim C6) -/

/-- Counterexample to C6: the random-comparator shuffle is not an
unbiased shuffle.  Over the 16 equally likely length-4 coin lists, the
probability of producing `[0,1,2]` would have to be 1/6 for uniformity,
i.e. 6 · count = 16, which fails; moreover `[0,1,2]` and `[2,1,0]` are
produced with visibly different frequencies (4/16 versus 2/16). -/
theorem shuffleJS_not_uniform :
    6 * shuffleCount 4 [0, 1, 2] ≠ 2 ^ 4 ∧
    shuffleCount 4 [0, 1, 2] ≠ shuffleCount 4 [2, 1, 0] := by
  decide

/-- C6 (amended): at session start and restart the word list is a
permutation of the repository (with no repeats when repository entries
are distinct) and the session walks it one index at a time; the
permutation is produced by the random-comparator sort, which is not an
unbiased shuffle. -/
theorem startLearning_shuffle_spec (s : LearnState) (coins : List Bool)
    (repo : List Word) :
    (startLearning s coins repo).words.Perm repo ∧
    (startLearning s coins repo).currentWordIndex = 0 ∧
    (startLearning s coins repo).phase = .welcome ∧
    (repo.Nodup → (startLearning s coins repo).words.Nodup) ∧
    (∀ t : LearnState, t.currentWordIndex + 1 < t.words.length →
      (handleAdvance t).currentWordIndex = t.currentWordIndex + 1 ∧
      (handleAdvance t).words = t.words ∧
      (handleAdvance t).phase = .introduction) ∧
    (∀ t : LearnState, t.currentWordIndex + 1 = t.words.length →
      (handleAdvance t).phase = .completed) := by
  refine ⟨shuffleJS_perm coins repo, rfl, rfl,
    fun hnd => shuffleJS_nodup coins hnd, ?_, ?_⟩
  · intro t ht
    have hcond : t.currentWordIndex < t.words.length - 1 := by omega
    simp [handleAdvance, hcond, handleNextPhase, resetForNextWord]
  · intro t ht
    have hcond : ¬ t.currentWordIndex < t.words.length - 1 := by omega
    simp [handleAdvance, hcond, handleNextPhase, resetForNextWord]

/-- Witness for C6 (amended) at a concrete repository and state. -/
theorem startLearning_shuffle_spec_witness :
    (startLearning ⟨[], 0, .welcome, none, "", "", ""⟩ [true]
        sampleRepo).words.Perm sampleRepo ∧
    sampleRepo.Nodup ∧
    (startLearning ⟨[], 0, .welcome, none, "", "", ""⟩ [true]
        sampleRepo).words.Nodup ∧
    (handleAdvance ⟨[wCat, wDog], 0, .spelling, none, "", "",
        ""⟩).currentWordIndex = 1 ∧
    (handleAdvance ⟨[wCat, wDog], 1, .spelling, none, "", "",
        ""⟩).phase = .completed :=
  ⟨(startLearning_shuffle_spec ⟨[], 0, .welcome, none, "", "", ""⟩ [true]
      sampleRepo).1,
    by decide,
    (startLearning_shuffle_spec ⟨[], 0, .welcome, none, "", "", ""⟩ [true]
        sampleRepo).2.2.2.1 (by decide),
    ((startLearning_shuffle_spec ⟨[], 0, .welcome, none, "", "", ""⟩ [true]
        sampleRepo).2.2.2.2.1 ⟨[wCat, wDog], 0, .spelling, none, "", "", ""⟩
      (by decide)).1,
    (startLearning_shuffle_spec ⟨[], 0, .welcome, none, "", "", ""⟩ [true]
        sampleRepo).2.2.2.2.2 ⟨[wCat, wDog], 1, .spelling, none, "", "", ""⟩
      (by decide)⟩

/-! ## Theorems: scoring (claims C3 and C4) -/

theorem length_filter_eq_sum {α : Type} (l : List α) (p : α → Bool) :
    (l.filter p).length = (l.map fun a => if p a then 1 else 0).sum := by
  induction l with
  | nil => rfl
  | cons a t ih =>
      by_cases h : p a
      · simp [List.filter_cons, h, ih]
        omega
      · simp [List.filter_cons, h, ih]

theorem foldl_hardScoreStep (qs : List TestQuestion) (n : Nat) :
    qs.foldl hardScoreStep n = n + (qs.map questionPoints).sum := by
  induction qs generalizing n with
  | nil => simp
  | cons q t ih =>
      rw [List.foldl_cons, ih]
      have hq : hardScoreStep n q = n + questionPoints q := by
        simp only [hardScoreStep, questionPoints]
        split <;> split <;> omega
      rw [hq, List.map_cons, List.sum_cons]
      omega

theorem questionPoints_le_two (q : TestQuestion) : questionPoints q ≤ 2 := by
  simp only [questionPoints]
  split <;> split <;> omega

theorem sum_questionPoints_le (qs : List TestQuestion) :
    (qs.map questionPoints).sum ≤ qs.length * 2 := by
  induction qs with
  | nil => simp
  | cons q t ih =>
      rw [List.map_cons, List.sum_cons, List.length_cons]
      have := questionPoints_le_two q
      omega

theorem finishTest_score_le (mode : TestMode) (qs : List TestQuestion) :
    (finishTest mode qs).score ≤ (finishTest mode qs).maxScore := by
  cases mode with
  | easy => exact List.length_filter_le _ _
  | hard =>
      show qs.foldl hardScoreStep 0 ≤ qs.length * 2
      rw [foldl_hardScoreStep]
      simpa using sum_questionPoints_le qs

theorem jsPct_zero (m : Nat) : jsPct 0 m = 0 := rfl

theorem flDiv_self {m : Nat} (hm : 0 < m) : flDiv m m = (2 ^ 52, -52) := by
  have hne : m ≠ 0 := hm.ne'
  simp only [flDiv, hne, if_false, le_refl, if_true, Nat.div_self hm,
    show natLog2 1 = 0 from rfl]
  norm_num [rneDiv, Nat.mul_div_cancel_left _ hm, Nat.mul_mod_right, hm]

theorem jsPct_self {m : Nat} (hm : 0 < m) : jsPct m m = 100 := by
  have h : jsPct m m = mathRoundDyadic (flMul100 (flDiv m m)) := rfl
  rw [h, flDiv_self hm]
  decide

set_option maxHeartbeats 1600000 in
theorem jsPct_table :
    ((List.range 41).all fun m => (List.range (m + 1)).all fun s =>
      (decide (s = 23 ∧ m = 40)) ||
        (jsPct s m == (200 * s + m) / (2 * m))) = true := by
  decide

theorem jsPct_agree {s m : Nat} (hm : m ≤ 40) (hs : s ≤ m)
    (hex : ¬(s = 23 ∧ m = 40)) : jsPct s m = (200 * s + m) / (2 * m) := by
  have h := jsPct_table
  rw [List.all_eq_true] at h
  have h1 := h m (List.mem_range.mpr (by omega))
  rw [List.all_eq_true] at h1
  have h2 := h1 s (List.mem_range.mpr (by omega))
  simp only [Bool.or_eq_true, decide_eq_true_eq, beq_iff_eq] at h2
  tauto

theorem round_natCast_div (s m : Nat) (hm : 0 < m) :
    round ((100 * s : ℚ) / m) = (((200 * s + m) / (2 * m) : ℕ) : ℤ) := by
  have hm0 : (m : ℚ) ≠ 0 := Nat.cast_ne_zero.mpr hm.ne'
  rw [round_eq]
  have hx : (100 * s : ℚ) / m + 1 / 2 =
      ((200 * s + m : ℕ) : ℚ) / ((2 * m : ℕ) : ℚ) := by
    push_cast
    field_simp
    ring
  rw [hx, ← Int.natCast_floor_eq_floor (by positivity),
    Nat.floor_div_eq_div]

/-- C3: the final score is 1 point per easy question whose submitted
option equals the clean word exactly, with maxScore the question count;
in hard mode 2 points per question (1 per matching leg) with maxScore
2 × count; an all-correct hard test scores 2 × count with percentage
100, an all-wrong one scores 0 with percentage 0. -/
theorem finishTest_score_spec :
    (∀ qs : List TestQuestion,
      (finishTest .easy qs).score =
        (qs.map fun q =>
          if q.userAnswer = some q.word.cleanWord then 1 else 0).sum ∧
      (finishTest .easy qs).maxScore = qs.length) ∧
    (∀ answers : List (Word × String × String),
      (hardTestFromAnswers answers).score =
        (answers.map fun a =>
          (if answerMatches a.2.1 a.1 then 1 else 0) +
            (if answerMatches a.2.2 a.1 then 1 else 0)).sum ∧
      (hardTestFromAnswers answers).maxScore = 2 * answers.length) ∧
    (∀ answers : List (Word × String × String),
      (∀ a ∈ answers,
        answerMatches a.2.1 a.1 = true ∧ answerMatches a.2.2 a.1 = true) →
      (hardTestFromAnswers answers).score = 2 * answers.length ∧
      (answers ≠ [] → (hardTestFromAnswers answers).percentage = 100)) ∧
    (∀ answers : List (Word × String × String),
      (∀ a ∈ answers,
        answerMatches a.2.1 a.1 = false ∧
          answerMatches a.2.2 a.1 = false) →
      (hardTestFromAnswers answers).score = 0 ∧
      (answers ≠ [] → (hardTestFromAnswers answers).percentage = 0)) := by
  have hscore : ∀ answers : List (Word × String × String),
      (hardTestFromAnswers answers).score =
        (answers.map fun a =>
          (if answerMatches a.2.1 a.1 then 1 else 0) +
            (if answerMatches a.2.2 a.1 then 1 else 0)).sum := by
    intro answers
    show (answers.map fun a =>
        hardQuestionFromAnswers a.1 a.2.1 a.2.2).foldl hardScoreStep 0 = _
    rw [foldl_hardScoreStep, List.map_map, Nat.zero_add]
    congr 1
    apply List.map_congr_left
    intro a _
    simp [Function.comp_def, questionPoints, hardQuestionFromAnswers,
      handleHardTestSubmitUpdate]
  have hmax : ∀ answers : List (Word × String × String),
      (hardTestFromAnswers answers).maxScore = 2 * answers.length := by
    intro answers
    show (answers.map fun a =>
        hardQuestionFromAnswers a.1 a.2.1 a.2.2).length * 2 = _
    rw [List.length_map]
    omega
  refine ⟨?_, fun answers => ⟨hscore answers, hmax answers⟩, ?_, ?_⟩
  · intro qs
    refine ⟨?_, rfl⟩
    show (qs.filter fun q => q.userAnswer == some q.word.cleanWord).length = _
    rw [length_filter_eq_sum]
    congr 1
    apply List.map_congr_left
    intro q _
    by_cases h : q.userAnswer = some q.word.cleanWord <;> simp [h]
  · intro answers hall
    have hs : (hardTestFromAnswers answers).score = 2 * answers.length := by
      rw [hscore answers]
      have : (answers.map fun a =>
          (if answerMatches a.2.1 a.1 then 1 else 0) +
            (if answerMatches a.2.2 a.1 then 1 else 0)) =
          answers.map fun _ => 2 := by
        apply List.map_congr_left
        intro a ha
        simp [(hall a ha).1, (hall a ha).2]
      rw [this, List.map_const', List.sum_replicate]
      simp [Nat.mul_comm]
    refine ⟨hs, fun hne => ?_⟩
    have hp : (hardTestFromAnswers answers).percentage =
        jsPct (hardTestFromAnswers answers).score
          (hardTestFromAnswers answers).maxScore := rfl
    rw [hp, hs, hmax answers]
    exact jsPct_self (by
      have : answers.length ≠ 0 := fun h => hne (List.eq_nil_of_length_eq_zero h)
      omega)
  · intro answers hall
    have hs : (hardTestFromAnswers answers).score = 0 := by
      rw [hscore answers]
      have : (answers.map fun a =>
          (if answerMatches a.2.1 a.1 then 1 else 0) +
            (if answerMatches a.2.2 a.1 then 1 else 0)) =
          answers.map fun _ => 0 := by
        apply List.map_congr_left
        intro a ha
        simp [(hall a ha).1, (hall a ha).2]
      rw [this, List.map_const', List.sum_replicate]
      simp
    refine ⟨hs, fun _ => ?_⟩
    have hp : (hardTestFromAnswers answers).percentage =
        jsPct (hardTestFromAnswers answers).score
          (hardTestFromAnswers answers).maxScore := rfl
    rw [hp, hs]
    exact jsPct_zero _

/-- Witness for C3: a one-question all-correct hard test and a
one-question all-wrong hard test, plus the easy-mode formula at a
concrete question list. -/
theorem finishTest_score_spec_witness :
    (finishTest .easy [⟨wCat, none, some "cat", none, none, true⟩]).score =
      1 ∧
    (∀ a ∈ [(wCat, "cat", " CAT ")],
      answerMatches a.2.1 a.1 = true ∧ answerMatches a.2.2 a.1 = true) ∧
    (hardTestFromAnswers [(wCat, "cat", " CAT ")]).score = 2 * 1 ∧
    (hardTestFromAnswers [(wCat, "cat", " CAT ")]).percentage = 100 ∧
    (∀ a ∈ [(wCat, "zz", "qq")],
      answerMatches a.2.1 a.1 = false ∧ answerMatches a.2.2 a.1 = false) ∧
    (hardTestFromAnswers [(wCat, "zz", "qq")]).score = 0 ∧
    (hardTestFromAnswers [(wCat, "zz", "qq")]).percentage = 0 := by
  refine ⟨?_, by decide, ?_, ?_, by decide, ?_, ?_⟩
  · rw [(finishTest_score_spec.1
      [⟨wCat, none, some "cat", none, none, true⟩]).1]
    decide
  · exact ((finishTest_score_spec.2.2.1 [(wCat, "cat", " CAT ")])
      (by decide)).1
  · exact ((finishTest_score_spec.2.2.1 [(wCat, "cat", " CAT ")])
      (by decide)).2 (by decide)
  · exact ((finishTest_score_spec.2.2.2 [(wCat, "zz", "qq")])
      (by decide)).1
  · exact ((finishTest_score_spec.2.2.2 [(wCat, "zz", "qq")])
      (by decide)).2 (by decide)

/-- Counterexample to C4: at score 23 of maxScore 40 the double-precision
product `(23/40)*100` is `57.49999999999999…`, so `Math.round` yields 57,
while round-half-away-from-zero of the exact value 57.5 is 58. -/
theorem finishTest_percentage_cex :
    0 < (finishTest .hard exHardQuestions).maxScore ∧
    ((finishTest .hard exHardQuestions).percentage : ℤ) ≠
      round ((100 * (finishTest .hard exHardQuestions).score : ℚ) /
        ((finishTest .hard exHardQuestions).maxScore : ℚ)) := by
  have hs : (finishTest .hard exHardQuestions).score = 23 := by decide
  have hm : (finishTest .hard exHardQuestions).maxScore = 40 := by decide
  have hp : (finishTest .hard exHardQuestions).percentage = 57 := by decide
  refine ⟨by omega, ?_⟩
  rw [hs, hm, hp]
  have h58 : round ((100 * (23 : ℕ) : ℚ) / ((40 : ℕ) : ℚ)) = 58 := by
    norm_num [round_eq]
  rw [h58]
  decide

/-- C4 (amended): for every finalized result with 0 < maxScore ≤ 40, the
percentage equals round-half-away-from-zero of 100·score/maxScore except
at score 23 with maxScore 40, where the double-precision product falls
just below the .5 tie and `Math.round` returns 57 instead of 58. -/
theorem finishTest_percentage_round (mode : TestMode)
    (qs : List TestQuestion)
    (h0 : 0 < (finishTest mode qs).maxScore)
    (h40 : (finishTest mode qs).maxScore ≤ 40)
    (hex : ¬((finishTest mode qs).score = 23 ∧
      (finishTest mode qs).maxScore = 40)) :
    ((finishTest mode qs).percentage : ℤ) =
      round ((100 * (finishTest mode qs).score : ℚ) /
        ((finishTest mode qs).maxScore : ℚ)) := by
  have hle : (finishTest mode qs).score ≤ (finishTest mode qs).maxScore :=
    finishTest_score_le mode qs
  have hp : (finishTest mode qs).percentage =
      jsPct (finishTest mode qs).score (finishTest mode qs).maxScore := rfl
  rw [hp, jsPct_agree h40 hle hex, round_natCast_div _ _ h0]

/-- Witness for C4 (amended): a finished one-question hard test with both
legs correct has percentage 100 = round(100·2/2). -/
theorem finishTest_percentage_round_witness :
    0 < (finishTest .hard [qHardBoth]).maxScore ∧
    (finishTest .hard [qHardBoth]).maxScore ≤ 40 ∧
    ¬((finishTest .hard [qHardBoth]).score = 23 ∧
      (finishTest .hard [qHardBoth]).maxScore = 40) ∧
    ((finishTest .hard [qHardBoth]).percentage : ℤ) =
      round ((100 * (finishTest .hard [qHardBoth]).score : ℚ) /
        ((finishTest .hard [qHardBoth]).maxScore : ℚ)) :=
  ⟨by decide, by decide, by decide,
    finishTest_percentage_round .hard [qHardBoth] (by decide) (by decide)
      (by decide)⟩

/-! ## Theorems: speech services (claims C7 and C8) -/

/-- Counterexample to C7: a successful synthesis response whose body has
no `audioContent` field falls through the `if (data.audioContent)` guard
— nothing is played and the on-device fallback is **not** invoked, while
the claim requires exactly one fallback invocation for this failure
mode. -/
theorem speakWithGoogleTTS_missing_audio_cex :
    (speakWithGoogleTTS true false false (.payload none)).fallbackCalls ≠
      1 ∧
    (speakWithGoogleTTS true false false (.payload none)).played = false := by
  decide

/-- C7 (amended): on a fresh (uncached) call, a network/transport error
and a non-2xx HTTP status each invoke the on-device fallback exactly
once and propagate no exception; a response with a missing audio payload
invokes no fallback, plays nothing, and propagates no exception
either. -/
theorem speakWithGoogleTTS_fallback_spec (keyPresent playFails : Bool)
    (status : Nat) :
    ((speakWithGoogleTTS keyPresent false playFails
        .networkError).fallbackCalls = 1 ∧
      (speakWithGoogleTTS keyPresent false playFails
        .networkError).raised = false) ∧
    ((speakWithGoogleTTS keyPresent false playFails
        (.httpError status)).fallbackCalls = 1 ∧
      (speakWithGoogleTTS keyPresent false playFails
        (.httpError status)).raised = false) ∧
    ((speakWithGoogleTTS keyPresent false playFails
        (.payload none)).fallbackCalls = 0 ∧
      (speakWithGoogleTTS keyPresent false playFails
        (.payload none)).played = false ∧
      (speakWithGoogleTTS keyPresent false playFails
        (.payload none)).raised = false) :=
  ⟨⟨rfl, rfl⟩, ⟨rfl, rfl⟩, rfl, rfl, rfl⟩

/-- Counterexample to C8: with the API key absent, `speakWithGoogleTTS`
still attempts the network call (the source never checks
`GOOGLE_TTS_API_KEY`; the key is only interpolated into the URL), while
the claim requires the fallback path to be taken without any network
call. -/
theorem speakWithGoogleTTS_no_key_cex :
    (speakWithGoogleTTS false false false
      (.httpError 403)).fetchAttempted = true := by
  decide

/-- C8 (amended): the sentence-generation client short-circuits to its
configuration message without a network call when its key is absent; the
TTS client performs no key check and attempts the network call
regardless, reaching its fallback only through the resulting failure. -/
theorem apiKeyGuard_spec (outcome : GeminiOutcome)
    (keyPresent playFails : Bool) (o2 : TTSOutcome) :
    (getExampleSentence false outcome).sentence = geminiNoKeyMessage ∧
    (getExampleSentence false outcome).fetchAttempted = false ∧
    (speakWithGoogleTTS keyPresent false playFails o2).fetchAttempted =
      true ∧
    (∀ status : Nat,
      (speakWithGoogleTTS false false playFails
        (.httpError status)).fallbackCalls = 1) := by
  refine ⟨rfl, rfl, ?_, fun _ => rfl⟩
  cases o2 with
  | networkError => rfl
  | httpError _ => rfl
  | payload a => cases a <;> rfl

/-! ## Theorem: mic-check onend handler (claim C9) -/

/-- C9 is about `recognition.onend`: the claim says a mic-check session
ending with no result surfaces status `'error'` with the no-speech
message.  The handler closure, registered once by the mount-time effect
with dependency list `[]`, captured `micCheckStatus = 'idle'`; its inner
`micCheckStatus === 'listening'` test therefore always fails, so the
status stays `'listening'` and no error is surfaced (first conjunct).
Had the handler read the live status (second conjunct), it would have
produced exactly the claimed error — the code contradicts its own
plainly intended dead branch. -/
theorem recognitionOnEnd_stale_spec :
    recognitionOnEnd capturedStatusAtMount .micCheck
        ⟨true, .listening, none⟩ =
      ⟨false, .listening, none⟩ ∧
    recognitionOnEnd .listening .micCheck ⟨true, .listening, none⟩ =
      ⟨false, .error, some noSpeechMessage⟩ := by
  decide

/-! ## Theorem: hard-test spelling leg (claim C10) -/

/-- C10: after the 1500 ms feedback delay the hard-test question advances
unconditionally to its pronunciation leg — there is no retry of the
spelling leg — and when the typed answer was wrong the recorded spelling
flag is the mismatch itself, so the submitted question contributes only
its pronunciation point to the final score. -/
theorem handleHardSpellingCheck_no_retry (s : HardTestState) (w : Word) :
    (handleHardSpellingCheckDelayed
        (handleHardSpellingCheck s w)).hardTestPhase = .pronunciationLeg ∧
    (handleHardSpellingCheckDelayed
        (handleHardSpellingCheck s w)).hardSpellingCorrect =
      answerMatches s.inputValue w ∧
    (handleHardSpellingCheckDelayed
        (handleHardSpellingCheck s w)).feedback = none ∧
    (∀ qs : List TestQuestion,
      (finishTest .hard qs).score = (qs.map questionPoints).sum) ∧
    (answerMatches s.inputValue w = false →
      ∀ (q : TestQuestion) (pc : Bool),
        questionPoints (handleHardTestSubmitUpdate q
          (handleHardSpellingCheckDelayed
            (handleHardSpellingCheck s w)).hardSpellingCorrect pc) =
        if pc then 1 else 0) := by
  refine ⟨rfl, rfl, rfl, ?_, ?_⟩
  · intro qs
    show qs.foldl hardScoreStep 0 = _
    rw [foldl_hardScoreStep, Nat.zero_add]
  · intro hfalse q pc
    have hc : (handleHardSpellingCheckDelayed
        (handleHardSpellingCheck s w)).hardSpellingCorrect = false := hfalse
    rw [hc]
    cases pc <;>
      simp [handleHardTestSubmitUpdate, questionPoints]

/-- Witness for C10 at a concrete wrong typed answer. -/
theorem handleHardSpellingCheck_no_retry_witness :
    answerMatches "zz" wCat = false ∧
    (handleHardSpellingCheckDelayed (handleHardSpellingCheck
        ⟨"zz", "", none, .spellingLeg, true⟩ wCat)).hardTestPhase =
      .pronunciationLeg ∧
    questionPoints (handleHardTestSubmitUpdate qHardBoth
      (handleHardSpellingCheckDelayed (handleHardSpellingCheck
        ⟨"zz", "", none, .spellingLeg, true⟩ wCat)).hardSpellingCorrect
      true) = 1 :=
  ⟨by decide,
    (handleHardSpellingCheck_no_retry
      ⟨"zz", "", none, .spellingLeg, true⟩ wCat).1,
    (handleHardSpellingCheck_no_retry
      ⟨"zz", "", none, .spellingLeg, true⟩ wCat).2.2.2.2 (by decide)
      qHardBoth true⟩

end LingoChamp
